import Mathlib

/-!
Verification of the task pipeline engine of parallax-voice-office.

The engine lives in two near-duplicate front ends:
`obp-CLI.py` (class `UniversalTaskProcessor`) and `obp-GUI.py` (class
`TaskProcessor`).  This file gives a shallow embedding of the parts the
claims concern: the `Task` record and its enums, the retry policy of
`process_task`, the step loop and its per-step dispatch, the prompt
template resolution `format_prompt`, queue persistence
(`save_queue` / `load_queue`), id generation in `add_task`,
`update_task` and `get_stats`.

Python strings are modelled as `List Char`; Python dicts that the engine
iterates in insertion order (`task.results`, `task.metadata`) are
modelled as association lists.  Result values are modelled by their
string rendering (the engine only ever substitutes their rendered form
into prompts and never inspects their structure in the code under
verification).  Timestamps are opaque strings supplied as explicit
`now` arguments; wall-clock durations are opaque `Int` arguments.
External collaborators (plugins, the generative-model client) are
function parameters.
-/

set_option linter.unusedVariables false

namespace OBP

/-- Python `str`, modelled as a list of characters. -/
abbrev Str := List Char

/-- `class TaskType(Enum)` of obp-CLI.py / obp-GUI.py (identical in both). -/
inductive TaskType where
  | search
  | process
  | create
  | chain
  | code
  | custom
  deriving DecidableEq

/-- The `.value` string of each `TaskType` member. -/
def TaskType.value : TaskType → Str
  | TaskType.search => "search".data
  | TaskType.process => "process".data
  | TaskType.create => "create".data
  | TaskType.chain => "chain".data
  | TaskType.code => "code".data
  | TaskType.custom => "custom".data

/-- `TaskType(s)`: look a member up by value; `none` models the
`ValueError` Python raises on an unrecognized value. -/
def TaskType.ofValue? (s : Str) : Option TaskType :=
  if s = "search".data then some TaskType.search
  else if s = "process".data then some TaskType.process
  else if s = "create".data then some TaskType.create
  else if s = "chain".data then some TaskType.chain
  else if s = "code".data then some TaskType.code
  else if s = "custom".data then some TaskType.custom
  else none

/-- `class TaskStatus(Enum)` of obp-CLI.py / obp-GUI.py. -/
inductive TaskStatus where
  | pending
  | processing
  | completed
  | failed
  | retrying
  deriving DecidableEq

/-- The `.value` string of each `TaskStatus` member. -/
def TaskStatus.value : TaskStatus → Str
  | TaskStatus.pending => "pending".data
  | TaskStatus.processing => "processing".data
  | TaskStatus.completed => "completed".data
  | TaskStatus.failed => "failed".data
  | TaskStatus.retrying => "retrying".data

/-- `TaskStatus(s)`: look a member up by value; `none` models `ValueError`. -/
def TaskStatus.ofValue? (s : Str) : Option TaskStatus :=
  if s = "pending".data then some TaskStatus.pending
  else if s = "processing".data then some TaskStatus.processing
  else if s = "completed".data then some TaskStatus.completed
  else if s = "failed".data then some TaskStatus.failed
  else if s = "retrying".data then some TaskStatus.retrying
  else none

/-- The `@dataclass class Task` (identical field list in both front ends).
`results` and `metadata` are insertion-ordered dicts, modelled as
association lists; result values are modelled by their string rendering.
`processing_time` (a Python float) is modelled as an opaque `Int`. -/
structure Task where
  id : Str
  type : TaskType
  content : Str
  config_name : Option Str := none
  status : TaskStatus := TaskStatus.pending
  results : List (Str × Str) := []
  metadata : List (Str × Str) := []
  error : Option Str := none
  retry_count : Nat := 0
  created_at : Str := []
  updated_at : Str := []
  processing_time : Int := 0
  deriving DecidableEq

/-- `Task.__post_init__`: stamp `created_at` when it is empty and
unconditionally overwrite `updated_at` with the current time. -/
def Task.postInit (t : Task) (now : Str) : Task :=
  let t1 := if t.created_at = [] then { t with created_at := now } else t
  { t1 with updated_at := now }

/-- Entry into `process_task`: `task.status = TaskStatus.PROCESSING`. -/
def startRun (t : Task) : Task :=
  { t with status := TaskStatus.processing }

/-- The `except Exception` arm of `UniversalTaskProcessor.process_task`
(obp-CLI.py): record the exception message, bump `retry_count`, then go to
`RETRYING` while `retry_count < max_retries` and to `FAILED` otherwise. -/
def failOutcome (maxRetries : Nat) (msg now : Str) (t : Task) : Task :=
  let rc := t.retry_count + 1
  { t with
      error := some msg
      retry_count := rc
      status := if rc < maxRetries then TaskStatus.retrying else TaskStatus.failed
      updated_at := now }

/-- One run of the CLI `process_task` on a task whose step raises:
the status is first set to `PROCESSING`, then the exception arm runs. -/
def failingRun (maxRetries : Nat) (msg now : Str) (t : Task) : Task :=
  failOutcome maxRetries msg now (startRun t)

/-- A sequence of failing runs (each run's exception message listed in order). -/
def failingRuns (maxRetries : Nat) (msgs : List Str) (now : Str) (t : Task) : Task :=
  msgs.foldl (fun acc m => failingRun maxRetries m now acc) t

/-- The `except Exception` arm of `TaskProcessor.process_task` (obp-GUI.py):
the GUI engine has no retry branch at all — any exception sends the task
straight to `FAILED` with `retry_count` incremented. -/
def process_task_fail_gui (t : Task) (msg now : Str) : Task :=
  { startRun t with
      status := TaskStatus.failed
      error := some msg
      retry_count := t.retry_count + 1
      updated_at := now }

/-! ### String machinery: Python `str.replace`, `in`, and `re.findall` -/

/-- Python `s.replace(p, r)` (all non-overlapping occurrences, left to
right), implemented with a fuel argument so that the definition is
structurally recursive and evaluates inside the kernel.  The fuel is
always instantiated with `s.length`, which is sufficient whenever the
pattern is nonempty (every pattern the engine builds is nonempty, since
each is wrapped in braces). -/
def replaceAllGo (p r : Str) : Nat → Str → Str
  | 0, s => s
  | _ + 1, [] => []
  | fuel + 1, c :: rest =>
    if p ≠ [] ∧ p.isPrefixOf (c :: rest) then
      r ++ replaceAllGo p r fuel ((c :: rest).drop p.length)
    else
      c :: replaceAllGo p r fuel rest

/-- Python `s.replace(p, r)` for a nonempty pattern `p`. -/
def replaceAll (p r s : Str) : Str :=
  replaceAllGo p r s.length s

/-- Python `p in s` (substring containment). -/
def containsSub (p : Str) : Str → Bool
  | [] => p.isEmpty
  | c :: rest => p.isPrefixOf (c :: rest) || containsSub p rest

/-- Python `re.findall(r'\{[^}]+\}', s)`: the matched substrings, left to
right, non-overlapping; at a `'{'` the regex greedily takes the maximal
run of non-`'}'` characters and requires it to be nonempty and followed
by `'}'`.  Fueled like `replaceAllGo`; the fuel `s.length` is always
sufficient. -/
def findPlaceholdersGo : Nat → Str → List Str
  | 0, _ => []
  | _ + 1, [] => []
  | fuel + 1, c :: rest =>
    if c = '{' then
      let body := rest.takeWhile (fun x => x != '}')
      let rem := rest.dropWhile (fun x => x != '}')
      if body ≠ [] ∧ rem ≠ [] then
        ('{' :: body ++ ['}']) :: findPlaceholdersGo fuel (rem.drop 1)
      else findPlaceholdersGo fuel rest
    else findPlaceholdersGo fuel rest

/-- `re.findall(r'\{[^}]+\}', s)`. -/
def findPlaceholders (s : Str) : List Str :=
  findPlaceholdersGo s.length s

/-- The tail of `UniversalTaskProcessor.format_prompt`: every remaining
placeholder found by the regex is replaced with the empty string (the
source skips the literal one-character strings `'{'` and `'}'`, a check
the regex makes unreachable but which is kept here faithfully). -/
def resolveRemaining (s : Str) : Str :=
  (findPlaceholders s).foldl
    (fun acc ph => if ph = ['{'] ∨ ph = ['}'] then acc else replaceAll ph [] acc) s

/-- `UniversalTaskProcessor.format_prompt` (obp-CLI.py): substitute
`{content}` and `{task_id}`, then for each result key `k` (in insertion
order) substitute `{k_result}` and `{k}` when present, then each metadata
key, and finally blank every remaining regex placeholder. -/
def format_prompt (template : Str) (task : Task) : Str :=
  if template = [] then []
  else
    resolveRemaining
      (task.metadata.foldl
        (fun acc kv =>
          if containsSub ('{' :: kv.1 ++ ['}']) acc then
            replaceAll ('{' :: kv.1 ++ ['}']) kv.2 acc
          else acc)
        (task.results.foldl
          (fun acc kv =>
            let acc1 :=
              if containsSub ('{' :: (kv.1 ++ "_result".data) ++ ['}']) acc then
                replaceAll ('{' :: (kv.1 ++ "_result".data) ++ ['}']) kv.2 acc
              else acc
            if containsSub ('{' :: kv.1 ++ ['}']) acc1 then
              replaceAll ('{' :: kv.1 ++ ['}']) kv.2 acc1
            else acc1)
          (replaceAll ("{task_id}".data) task.id
            (replaceAll ("{content}".data) task.content template))))

/-! ### The step loop of `UniversalTaskProcessor.process_task` -/

/-- One step of a task configuration: a dict with a `name` and optionally
a `plugin` and/or a `prompt` key (`prompt` may be present but empty). -/
structure Step where
  name : Str
  plugin : Option Str := none
  prompt : Option Str := none
  deriving DecidableEq

/-- Python dict assignment `d[k] = v`: overwrite in place when the key
exists (its position is kept), append otherwise. -/
def dictInsert (d : List (Str × Str)) (k v : Str) : List (Str × Str) :=
  if d.any (fun kv => kv.1 == k) then
    d.map (fun kv => if kv.1 == k then (k, v) else kv)
  else d ++ [(k, v)]

/-- One iteration of the step loop of the CLI `process_task`, on a run
where no exception is raised.  `plugins` is the set of registered plugin
names; `pexec` models `plugin.execute(task, context)` and `llm` models
`process_with_ollama`.  A step carrying a `plugin` key whose plugin is
not registered only logs a warning: nothing is recorded.  A step with no
`plugin` key and an empty or missing `prompt` records nothing either. -/
def runStep (plugins : List Str) (pexec : Str → Task → Step → Str) (llm : Str → Str)
    (t : Task) (st : Step) : Task :=
  match st.plugin with
  | some pname =>
    if plugins.contains pname then
      { t with results := dictInsert t.results st.name (pexec pname t st) }
    else t
  | none =>
    match st.prompt with
    | some tpl =>
      if tpl = [] then t
      else { t with results := dictInsert t.results st.name (llm (format_prompt tpl t)) }
    | none => t

/-- The full step loop (`for step in config.get('steps', [])`) on an
exception-free run. -/
def runSteps (plugins : List Str) (pexec : Str → Task → Step → Str) (llm : Str → Str)
    (steps : List Step) (t : Task) : Task :=
  steps.foldl (runStep plugins pexec llm) t

/-- Whether the step loop records a result for a step: its plugin is
registered, or it has a nonempty prompt (and no plugin key). -/
def Step.executes (st : Step) (plugins : List Str) : Bool :=
  match st.plugin with
  | some pname => plugins.contains pname
  | none =>
    match st.prompt with
    | some tpl => !tpl.isEmpty
    | none => false

/-- The success tail of the CLI `process_task`: status `COMPLETED`,
`processing_time` set to the elapsed time, `updated_at` refreshed.
The `error` field is not touched. -/
def completeRun (t : Task) (now : Str) (elapsed : Int) : Task :=
  { t with
      status := TaskStatus.completed
      processing_time := elapsed
      updated_at := now }

/-- A full successful run of the CLI `process_task`: enter `PROCESSING`,
run every step, then the success tail. -/
def process_task_ok (plugins : List Str) (pexec : Str → Task → Step → Str)
    (llm : Str → Str) (steps : List Step) (t : Task) (now : Str) (elapsed : Int) : Task :=
  completeRun (runSteps plugins pexec llm steps (startRun t)) now elapsed

/-! ### Persistence: `save_queue` / `load_queue` -/

/-- The JSON object `save_queue` writes for one task: `asdict(task)` with
the `type` and `status` enums replaced by their `.value` strings. -/
structure TaskRecord where
  id : Str
  type : Str
  content : Str
  config_name : Option Str
  status : Str
  results : List (Str × Str)
  metadata : List (Str × Str)
  error : Option Str
  retry_count : Nat
  created_at : Str
  updated_at : Str
  processing_time : Int
  deriving DecidableEq

/-- Serialization of one task (the loop body of `save_queue`). -/
def saveTask (t : Task) : TaskRecord :=
  { id := t.id
    type := t.type.value
    content := t.content
    config_name := t.config_name
    status := t.status.value
    results := t.results
    metadata := t.metadata
    error := t.error
    retry_count := t.retry_count
    created_at := t.created_at
    updated_at := t.updated_at
    processing_time := t.processing_time }

/-- `save_queue`: serialize every task of the in-memory queue. -/
def save_queue (q : List Task) : List TaskRecord :=
  q.map saveTask

/-- One iteration of the `load_queue` loop: convert the `type` and
`status` strings back to enum members (`none` models the `ValueError`
raised on an unrecognized value) and call `Task(**item)`, which runs
`__post_init__` and therefore stamps `updated_at` with the load time. -/
def loadTask (r : TaskRecord) (now : Str) : Option Task :=
  match TaskType.ofValue? r.type with
  | none => none
  | some ty =>
    match TaskStatus.ofValue? r.status with
    | none => none
    | some st =>
      some (Task.postInit
        { id := r.id
          type := ty
          content := r.content
          config_name := r.config_name
          status := st
          results := r.results
          metadata := r.metadata
          error := r.error
          retry_count := r.retry_count
          created_at := r.created_at
          updated_at := r.updated_at
          processing_time := r.processing_time } now)

/-- `UniversalTaskProcessor.load_queue` (obp-CLI.py): rebuild the queue
item by item; an unrecognized enum value raises, and the exception
propagates to the caller (`none`). -/
def load_queue_cli (rs : List TaskRecord) (now : Str) : Option (List Task) :=
  match rs with
  | [] => some []
  | r :: rest =>
    match loadTask r now with
    | none => none
    | some t =>
      match load_queue_cli rest now with
      | none => none
      | some ts => some (t :: ts)

/-- `TaskProcessor.load_queue` (obp-GUI.py): the same loop wrapped in
`try: ... except: self.queue = []` — any failure silently resets the
queue to empty. -/
def load_queue_gui (rs : List TaskRecord) (now : Str) : List Task :=
  (load_queue_cli rs now).getD []

/-! ### Task ids, `update_task`, `get_stats` -/

/-- Id generation in `TaskProcessor.add_task` (obp-GUI.py):
`f"{task_type}_{datetime.now().strftime('%Y%m%d_%H%M%S_%f')[:17]}"`.
`ts` is the 22-character strftime output `YYYYMMDD_HHMMSS_ffffff`; the
`[:17]` slice keeps only the first microsecond digit (0.1 s resolution). -/
def gen_id_gui (task_type ts : Str) : Str :=
  task_type ++ '_' :: ts.take 17

/-- Id generation in the CLI web API `add_task` route:
`f"api_{datetime.now().strftime('%Y%m%d_%H%M%S')}"` (second resolution). -/
def gen_id_cli_api (ts : Str) : Str :=
  "api_".data ++ ts

/-- `TaskProcessor.add_task` (obp-GUI.py): build a `Task` with the
generated id and defaults (`__post_init__` stamps the timestamps) and
append it to the queue.  `none` models the `ValueError` of
`TaskType(task_type)` on an unrecognized type string. -/
def add_task_gui (q : List Task) (task_type content : Str)
    (metadata : List (Str × Str)) (ts now : Str) : Option (List Task × Str) :=
  match TaskType.ofValue? task_type with
  | none => none
  | some ty =>
    let task_id := gen_id_gui task_type ts
    let task := Task.postInit
      { id := task_id
        type := ty
        content := content
        config_name := none
        status := TaskStatus.pending
        results := []
        metadata := metadata
        error := none
        retry_count := 0
        created_at := []
        updated_at := []
        processing_time := 0 } now
    some (q ++ [task], task_id)

/-- Replace the first task with the given id (the in-place mutation of
the object `next(t for t in self.queue if t.id == task_id)` found). -/
def replaceFirst : List Task → Str → Task → List Task
  | [], _, _ => []
  | t :: ts, tid, t' =>
    if t.id == tid then t' :: ts else t :: replaceFirst ts tid t'

/-- `TaskProcessor.update_task` (obp-GUI.py): find the first task with
the given id; only when it exists and is `PENDING`, apply the optional
`content` / `metadata`, refresh `updated_at` and return `true`;
otherwise return `false` with the queue untouched. -/
def update_task (q : List Task) (task_id : Str) (content? : Option Str)
    (metadata? : Option (List (Str × Str))) (now : Str) : List Task × Bool :=
  match q.find? (fun t => t.id == task_id) with
  | none => (q, false)
  | some t =>
    if t.status = TaskStatus.pending then
      (replaceFirst q task_id
        { t with
            content := content?.getD t.content
            metadata := metadata?.getD t.metadata
            updated_at := now }, true)
    else (q, false)

/-- The record returned by `TaskProcessor.get_stats` (obp-GUI.py). -/
structure Stats where
  total : Nat
  pending : Nat
  processing : Nat
  completed : Nat
  failed : Nat
  deriving DecidableEq

/-- `TaskProcessor.get_stats`: `total` is the queue length; the four
per-status counts cover `PENDING`, `PROCESSING`, `COMPLETED`, `FAILED`
only — there is no field for `RETRYING`. -/
def get_stats (q : List Task) : Stats :=
  { total := q.length
    pending := q.countP (fun t => t.status = TaskStatus.pending)
    processing := q.countP (fun t => t.status = TaskStatus.processing)
    completed := q.countP (fun t => t.status = TaskStatus.completed)
    failed := q.countP (fun t => t.status = TaskStatus.failed) }

/-- A fresh pending task used as concrete input for witnesses. -/
def sampleTask : Task :=
  { id := "t1".data
    type := TaskType.process
    content := "hello".data
    config_name := some "process_tasks".data
    status := TaskStatus.pending
    results := []
    metadata := []
    error := none
    retry_count := 0
    created_at := "2025-01-01T00:00:00".data
    updated_at := "2025-01-01T00:00:00".data
    processing_time := 0 }

/-- A completed task used as concrete input for witnesses. -/
def doneTask : Task :=
  { sampleTask with id := "t2".data, status := TaskStatus.completed }

/-- A well-formed persisted record (parses back into a task). -/
def goodRecord : TaskRecord := saveTask sampleTask

/-- A persisted record whose serialized `status` is not a recognized
`TaskStatus` value. -/
def badRecord : TaskRecord := { saveTask sampleTask with status := "bogus".data }

/-- A step whose plugin is registered in the witnesses below. -/
def stepSearch : Step := { name := "search".data, plugin := some "web_search".data }

/-- A step whose plugin id is not registered anywhere. -/
def stepMissing : Step := { name := "enrich".data, plugin := some "nonexistent_plugin".data }

/-- A prompt step. -/
def stepSummarize : Step :=
  { name := "summarize".data, prompt := some "Summarize: {search}".data }

/-- A concrete stand-in for `plugin.execute`. -/
def noExec : Str → Task → Step → Str := fun _ _ _ => "out".data

/-- A concrete stand-in for `process_with_ollama`. -/
def noLLM : Str → Str := fun _ => "llm-out".data

/-- A task whose metadata holds the empty string as a key. -/
def emptyKeyTask : Task := { sampleTask with metadata := [([], "z".data)] }

/-! ## Helper lemmas -/

theorem runStep_error (plugins : List Str) (pexec : Str → Task → Step → Str)
    (llm : Str → Str) (t : Task) (st : Step) :
    (runStep plugins pexec llm t st).error = t.error := by
  rcases st with ⟨n, pl, pr⟩
  rcases pl with _ | p
  · rcases pr with _ | tpl
    · rfl
    · simp only [runStep]
      split <;> rfl
  · simp only [runStep]
    split <;> rfl

theorem runSteps_error (plugins : List Str) (pexec : Str → Task → Step → Str)
    (llm : Str → Str) : ∀ (steps : List Step) (t : Task),
    (runSteps plugins pexec llm steps t).error = t.error := by
  intro steps
  induction steps with
  | nil => intro t; rfl
  | cons st rest ih =>
    intro t
    have h1 := runStep_error plugins pexec llm t st
    have h2 := ih (runStep plugins pexec llm t st)
    simp only [runSteps, List.foldl_cons] at *
    rw [h2, h1]

theorem stats_partition (q : List Task) :
    (get_stats q).pending + (get_stats q).processing + (get_stats q).completed +
      (get_stats q).failed + q.countP (fun t => t.status = TaskStatus.retrying) =
    (get_stats q).total := by
  induction q with
  | nil => rfl
  | cons t rest ih =>
    simp only [get_stats, List.countP_cons, List.length_cons] at *
    cases h : t.status <;> simp [h] <;> omega

/-! ## Claim C1 -/

/-- C1, as stated, is false: with `max_retries = 3` the CLI engine marks
a task `FAILED` on the 3rd failing attempt (when `retry_count`, bumped
before the comparison `retry_count < max_retries`, reaches 3), not on a
4th; and the GUI engine marks a task `FAILED` already on its 1st failing
attempt, never entering `RETRYING` at all. -/
theorem c1_counterexample :
    (failingRuns 3 ["e1".data, "e2".data, "e3".data] "n".data sampleTask).status
        = TaskStatus.failed ∧
    (failingRuns 3 ["e1".data, "e2".data, "e3".data] "n".data sampleTask).status
        ≠ TaskStatus.retrying ∧
    (process_task_fail_gui sampleTask "e1".data "n".data).status = TaskStatus.failed := by
  decide

/-- C1 (amended): with `maxRetries = 3`, a CLI task whose step always
raises goes `Pending → Processing → Retrying` on each of the first two
failing runs (with `retry_count` incremented by exactly 1 per failed run
and `error` holding the run's message) and reaches the terminal state
`Failed` on the 3rd attempt — exactly when `retry_count ≥ maxRetries` is
reached on a failing run — with `error` the last exception's message. -/
theorem c1_retry_policy (t : Task) (m1 m2 m3 now1 now2 now3 : Str)
    (h : t.retry_count = 0) :
    (startRun t).status = TaskStatus.processing ∧
    (failingRun 3 m1 now1 t).status = TaskStatus.retrying ∧
    (failingRun 3 m1 now1 t).retry_count = 1 ∧
    (failingRun 3 m1 now1 t).error = some m1 ∧
    (failingRun 3 m2 now2 (failingRun 3 m1 now1 t)).status = TaskStatus.retrying ∧
    (failingRun 3 m2 now2 (failingRun 3 m1 now1 t)).retry_count = 2 ∧
    (failingRun 3 m3 now3 (failingRun 3 m2 now2 (failingRun 3 m1 now1 t))).status
        = TaskStatus.failed ∧
    (failingRun 3 m3 now3 (failingRun 3 m2 now2 (failingRun 3 m1 now1 t))).retry_count = 3 ∧
    (failingRun 3 m3 now3 (failingRun 3 m2 now2 (failingRun 3 m1 now1 t))).error = some m3 := by
  simp [failingRun, failOutcome, startRun, h]

/-- Witness for `c1_retry_policy` at a concrete fresh task. -/
theorem c1_retry_policy_witness :
    (failingRun 3 "e3".data "n3".data (failingRun 3 "e2".data "n2".data
        (failingRun 3 "e1".data "n1".data sampleTask))).status = TaskStatus.failed :=
  (c1_retry_policy sampleTask "e1".data "e2".data "e3".data "n1".data "n2".data "n3".data
    (by decide)).2.2.2.2.2.2.1

/-! ## Claim C3 -/

/-- C3, as stated, is false: the success tail of `process_task` never
clears `error`, so a task that completes on a retry after a failed
attempt ends with `status = COMPLETED` and the stale failure message
still in `error`. -/
theorem c3_counterexample :
    (process_task_ok [] noExec noLLM []
        (failingRun 3 "boom".data "n1".data sampleTask) "n2".data 5).status
        = TaskStatus.completed ∧
    (process_task_ok [] noExec noLLM []
        (failingRun 3 "boom".data "n1".data sampleTask) "n2".data 5).error
        = some "boom".data := by
  decide

/-- C3 (amended): a successful run of `process_task` ends with
`status = Completed` but leaves the `error` field exactly as it was, so
a task completed on a successful retry retains the last failure message
rather than having it cleared. -/
theorem c3_error_preserved (plugins : List Str) (pexec : Str → Task → Step → Str)
    (llm : Str → Str) (steps : List Step) (t : Task) (now : Str) (elapsed : Int) :
    (process_task_ok plugins pexec llm steps t now elapsed).status = TaskStatus.completed ∧
    (process_task_ok plugins pexec llm steps t now elapsed).error = t.error := by
  refine ⟨rfl, ?_⟩
  simp only [process_task_ok, completeRun]
  rw [runSteps_error]
  rfl

/-! ## Claim C6 -/

/-- C6, as stated, is false: GUI task ids are the creation timestamp
truncated to its first microsecond digit (0.1 s resolution), so two adds
at distinct instants 0.0734 s apart generate the same id, and the queue
then holds two tasks with one id. -/
theorem c6_counterexample :
    "20261012_120000_123456".data ≠ "20261012_120000_199999".data ∧
    gen_id_gui "search".data "20261012_120000_123456".data =
      gen_id_gui "search".data "20261012_120000_199999".data ∧
    (add_task_gui [] "search".data "c1".data [] "20261012_120000_123456".data "n1".data).map
        Prod.snd =
      (add_task_gui [] "search".data "c2".data [] "20261012_120000_199999".data "n2".data).map
        Prod.snd := by
  decide

/-- C6 (amended): a GUI task id is a deterministic function of the task
type and the creation timestamp truncated to 17 characters (0.1 s
resolution): for a fixed task type, two calls to `add_task` generate
distinct ids exactly when their truncated timestamps differ; creations
within the same 0.1 s window collide.  (The CLI API id `api_<ts>` has
second resolution.) -/
theorem c6_id_resolution (task_type ts1 ts2 : Str) :
    gen_id_gui task_type ts1 = gen_id_gui task_type ts2 ↔ ts1.take 17 = ts2.take 17 := by
  constructor
  · intro h
    have h2 := List.append_cancel_left h
    injection h2
  · intro h
    simp [gen_id_gui, h]

/-! ## Claim C9 -/

/-- C9 (confirmed): for the first queue task with the given id, when its
status is not `Pending`, `update_task` returns `false` with the whole
queue (hence every field of that task) unchanged; when it is `Pending`,
`update_task` returns `true` and replaces that task by the task with the
given content and/or metadata applied (and `updated_at` refreshed). -/
theorem c9_update_pending_only (q : List Task) (task_id : Str) (content? : Option Str)
    (metadata? : Option (List (Str × Str))) (now : Str) (t : Task)
    (hfind : q.find? (fun x => x.id == task_id) = some t) :
    (t.status ≠ TaskStatus.pending →
       update_task q task_id content? metadata? now = (q, false)) ∧
    (t.status = TaskStatus.pending →
       update_task q task_id content? metadata? now =
         (replaceFirst q task_id
           { t with
               content := content?.getD t.content
               metadata := metadata?.getD t.metadata
               updated_at := now }, true)) := by
  constructor
  · intro hs
    simp [update_task, hfind, hs]
  · intro hs
    simp [update_task, hfind, hs]

/-- Witness for `c9_update_pending_only`: updating a completed task
returns `false` and leaves the queue unchanged. -/
theorem c9_update_pending_only_witness :
    update_task [doneTask] "t2".data (some "new".data) none "n".data = ([doneTask], false) :=
  (c9_update_pending_only [doneTask] "t2".data (some "new".data) none "n".data doneTask
    (by decide)).1 (by decide)

/-! ## Claim C10 -/

/-- C10 (confirmed): `get_stats` reports `total` as the full queue
length while counting tasks only under `pending`, `processing`,
`completed` and `failed`; a `Retrying` task is in `total` and in none of
the four counters, so the four counters sum to `total` exactly when no
queued task is `Retrying`. -/
theorem c10_stats_sum (q : List Task) :
    (get_stats q).total = q.length ∧
    ((get_stats q).pending + (get_stats q).processing + (get_stats q).completed +
        (get_stats q).failed = (get_stats q).total ↔
      ∀ t ∈ q, t.status ≠ TaskStatus.retrying) := by
  refine ⟨rfl, ?_⟩
  have hpart := stats_partition q
  constructor
  · intro hsum t ht
    have hzero : q.countP (fun t => t.status = TaskStatus.retrying) = 0 := by omega
    have := List.countP_eq_zero.mp hzero t ht
    simpa using this
  · intro hall
    have hzero : q.countP (fun t => t.status = TaskStatus.retrying) = 0 := by
      rw [List.countP_eq_zero]
      intro t ht
      simpa using hall t ht
    omega

/-! ## Claim C4 -/

theorem taskType_ofValue_value (ty : TaskType) : TaskType.ofValue? ty.value = some ty := by
  cases ty <;> rfl

theorem taskStatus_ofValue_value (st : TaskStatus) :
    TaskStatus.ofValue? st.value = some st := by
  cases st <;> rfl

/-- C4, as stated, is false: `Task.__post_init__` runs again on load and
unconditionally overwrites `updated_at` with the load time, so the
reloaded task differs from the saved one in that field. -/
theorem c4_counterexample :
    loadTask (saveTask sampleTask) "2025-02-02T00:00:00".data ≠ some sampleTask := by
  decide

/-- C4 (amended): for every task whose `created_at` is nonempty, save
followed by load reconstructs the task bit-identically in every field —
including the enum-valued `type` and `status` and the `created_at`
timestamp — except `updated_at`, which `__post_init__` resets to the
load time. -/
theorem c4_roundtrip (t : Task) (now : Str) (h : t.created_at ≠ []) :
    loadTask (saveTask t) now = some { t with updated_at := now } := by
  rcases t with ⟨tid, ty, content, cfg, st, res, meta, err, rc, ca, ua, pt⟩
  simp only [loadTask, saveTask, taskType_ofValue_value, taskStatus_ofValue_value,
    Task.postInit]
  simp only at h
  simp [h]

/-- Witness for `c4_roundtrip` at a concrete task. -/
theorem c4_roundtrip_witness :
    loadTask (saveTask sampleTask) "2025-02-02T00:00:00".data =
      some { sampleTask with updated_at := "2025-02-02T00:00:00".data } :=
  c4_roundtrip sampleTask "2025-02-02T00:00:00".data (by decide)

/-! ## Claim C5 -/

theorem load_queue_cli_eq_none (rs : List TaskRecord) (now : Str) :
    load_queue_cli rs now = none ↔ ∃ r ∈ rs, loadTask r now = none := by
  induction rs with
  | nil => simp [load_queue_cli]
  | cons r rest ih =>
    cases h : loadTask r now with
    | none =>
      simp only [load_queue_cli, h]
      exact iff_of_true trivial ⟨r, List.mem_cons_self r rest, h⟩
    | some t =>
      cases h2 : load_queue_cli rest now with
      | none =>
        simp only [load_queue_cli, h, h2]
        refine iff_of_true trivial ?_
        obtain ⟨r', hr', hbad⟩ := ih.mp h2
        exact ⟨r', List.mem_cons_of_mem r hr', hbad⟩
      | some ts =>
        simp only [load_queue_cli, h, h2]
        constructor
        · intro hfalse
          cases hfalse
        · rintro ⟨r', hr', hbad⟩
          rcases List.mem_cons.mp hr' with rfl | hr'
          · rw [h] at hbad
            cases hbad
          · have := ih.mpr ⟨r', hr', hbad⟩
            rw [h2] at this
            cases this

/-- C5, as stated, is false for the GUI engine: its `load_queue` wraps
the whole loop in a bare `except` that resets the queue to empty, so a
snapshot holding one well-formed record and one record with an
unrecognized `status` loads as the empty queue — the error is swallowed
and every stored task, including the well-formed one, is silently
dropped. -/
theorem c5_counterexample :
    loadTask goodRecord "n".data ≠ none ∧
    load_queue_gui [goodRecord] "n".data ≠ [] ∧
    load_queue_gui [goodRecord, badRecord] "n".data = [] := by
  decide

/-- C5 (amended): on a snapshot containing an unparseable record, the
CLI `load_queue` fails loudly — it raises (returns no queue) exactly
when some stored record has an unrecognized enum value — while the GUI
`load_queue` swallows the failure and resets the queue to empty,
silently dropping every stored task. -/
theorem c5_load_failure (rs : List TaskRecord) (now : Str) :
    (load_queue_cli rs now = none ↔ ∃ r ∈ rs, loadTask r now = none) ∧
    (load_queue_cli rs now = none → load_queue_gui rs now = []) := by
  refine ⟨load_queue_cli_eq_none rs now, ?_⟩
  intro h
  simp [load_queue_gui, h]

/-- Witness for `c5_load_failure` on a concrete bad snapshot. -/
theorem c5_load_failure_witness :
    load_queue_gui [badRecord] "n".data = [] :=
  (c5_load_failure [badRecord] "n".data).2
    ((c5_load_failure [badRecord] "n".data).1.mpr
      ⟨badRecord, List.mem_cons_self badRecord [], by decide⟩)

/-! ## Claim C2 -/

theorem dictInsert_fresh (d : List (Str × Str)) (k v : Str)
    (h : ∀ kv ∈ d, kv.1 ≠ k) : dictInsert d k v = d ++ [(k, v)] := by
  have hany : d.any (fun kv => kv.1 == k) = false := by
    rw [List.any_eq_false]
    intro kv hkv
    simp [h kv hkv]
  simp [dictInsert, hany]

theorem runStep_keys (plugins : List Str) (pexec : Str → Task → Step → Str)
    (llm : Str → Str) (t : Task) (st : Step)
    (h : ∀ kv ∈ t.results, kv.1 ≠ st.name) :
    (runStep plugins pexec llm t st).results.map Prod.fst =
      t.results.map Prod.fst ++
        (if st.executes plugins then [st.name] else []) := by
  rcases st with ⟨n, pl, pr⟩
  simp only at h
  rcases pl with _ | p
  · rcases pr with _ | tpl
    · simp [runStep, Step.executes]
    · by_cases htpl : tpl = []
      · simp [runStep, Step.executes, htpl]
      · simp [runStep, Step.executes, htpl, dictInsert_fresh t.results n _ h]
  · by_cases hp : p ∈ plugins
    · simp [runStep, Step.executes, hp, dictInsert_fresh t.results n _ h]
    · simp [runStep, Step.executes, hp]

theorem runSteps_keys (plugins : List Str) (pexec : Str → Task → Step → Str)
    (llm : Str → Str) : ∀ (steps : List Step) (t : Task),
    (steps.map Step.name).Nodup →
    (∀ st ∈ steps, ∀ kv ∈ t.results, kv.1 ≠ st.name) →
    (runSteps plugins pexec llm steps t).results.map Prod.fst =
      t.results.map Prod.fst ++
        ((steps.filter (fun st => st.executes plugins)).map Step.name) := by
  intro steps
  induction steps with
  | nil =>
    intro t _ _
    simp [runSteps]
  | cons st rest ih =>
    intro t hnd hfresh
    have hnd2 : (rest.map Step.name).Nodup ∧ st.name ∉ rest.map Step.name := by
      rw [List.map_cons, List.nodup_cons] at hnd
      exact ⟨hnd.2, hnd.1⟩
    have hstep := runStep_keys plugins pexec llm t st (hfresh st (List.mem_cons_self st rest))
    have hfresh2 : ∀ st' ∈ rest, ∀ kv ∈ (runStep plugins pexec llm t st).results,
        kv.1 ≠ st'.name := by
      intro st' hst' kv hkv
      have hkey : kv.1 ∈ (runStep plugins pexec llm t st).results.map Prod.fst :=
        List.mem_map_of_mem Prod.fst hkv
      rw [hstep] at hkey
      rcases List.mem_append.mp hkey with hold | hnew
      · obtain ⟨kv0, hkv0, hfst⟩ := List.mem_map.mp hold
        rw [← hfst]
        exact hfresh st' (List.mem_cons_of_mem st hst') kv0 hkv0
      · have hkeq : kv.1 = st.name := by
          by_cases hex : st.executes plugins <;> simp [hex] at hnew
          · exact hnew
        rw [hkeq]
        intro heq
        exact hnd2.2 (heq ▸ List.mem_map_of_mem Step.name hst')
    have htail := ih (runStep plugins pexec llm t st) hnd2.1 hfresh2
    have hloop : runSteps plugins pexec llm (st :: rest) t =
        runSteps plugins pexec llm rest (runStep plugins pexec llm t st) := rfl
    rw [hloop, htail, hstep]
    by_cases hex : st.executes plugins <;>
      simp [hex, List.filter_cons, List.append_assoc]

/-- C2, as stated, is false: a step whose plugin id is not registered is
skipped entirely — `process_task` only logs a warning and records
nothing under the step's name — so after running a one-step
configuration whose plugin is unknown, `results` is empty rather than
holding that step's name. -/
theorem c2_counterexample :
    (runSteps [] noExec noLLM [stepMissing] sampleTask).results.map Prod.fst ≠
      [stepMissing].map Step.name ∧
    (runSteps [] noExec noLLM [stepMissing] sampleTask).results.map Prod.fst = [] := by
  decide

/-- C2 (amended): starting from empty `results` and distinct step names,
after the step loop the keys of `results` are exactly, in declared
order, the names of the steps that executed — those with a registered
plugin or a nonempty prompt; a step whose plugin id is unregistered (and
a step with neither plugin nor nonempty prompt) is skipped and recorded
under no key.  Instantiating `steps` with any prefix of a configuration
gives the per-`N` form of the claim. -/
theorem c2_results_keys (plugins : List Str) (pexec : Str → Task → Step → Str)
    (llm : Str → Str) (steps : List Step) (t : Task)
    (h0 : t.results = []) (hnd : (steps.map Step.name).Nodup) :
    (runSteps plugins pexec llm steps t).results.map Prod.fst =
      (steps.filter (fun st => st.executes plugins)).map Step.name := by
  have hfresh : ∀ st ∈ steps, ∀ kv ∈ t.results, kv.1 ≠ st.name := by
    intro st hst kv hkv
    rw [h0] at hkv
    cases hkv
  have := runSteps_keys plugins pexec llm steps t hnd hfresh
  rw [h0] at this
  simpa using this

/-- Witness for `c2_results_keys` on a three-step configuration whose
middle step's plugin is unregistered: the recorded keys are the first
and third step names. -/
theorem c2_results_keys_witness :
    (runSteps ["web_search".data] noExec noLLM [stepSearch, stepMissing, stepSummarize]
        sampleTask).results.map Prod.fst =
      ([stepSearch, stepMissing, stepSummarize].filter
        (fun st => st.executes ["web_search".data])).map Step.name :=
  c2_results_keys ["web_search".data] noExec noLLM [stepSearch, stepMissing, stepSummarize]
    sampleTask (by decide) (by decide)

/-! ## String lemmas for the template engine (claims C7 and C8) -/

theorem isPrefixOf_eq_true_iff : ∀ (p s : Str), p.isPrefixOf s = true ↔ p <+: s := by
  intro p
  induction p with
  | nil =>
    intro s
    simpa using List.nil_prefix s
  | cons a p' ih =>
    intro s
    cases s with
    | nil =>
      simp only [List.isPrefixOf_cons_nil, Bool.false_eq_true, false_iff]
      rintro ⟨t, ht⟩
      cases ht
    | cons b s' =>
      simp only [List.isPrefixOf, Bool.and_eq_true, beq_iff_eq, ih s']
      constructor
      · rintro ⟨rfl, t, rfl⟩
        exact ⟨t, rfl⟩
      · rintro ⟨t, ht⟩
        injection ht with h1 h2
        exact ⟨h1, t, h2⟩

theorem containsSub_eq_true_iff (p : Str) : ∀ s : Str, containsSub p s = true ↔ p <:+: s := by
  intro s
  induction s with
  | nil =>
    cases p with
    | nil =>
      simp only [containsSub, List.isEmpty_nil, true_iff]
      exact ⟨[], [], rfl⟩
    | cons a p' =>
      simp only [containsSub, List.isEmpty_cons, Bool.false_eq_true, false_iff]
      rintro ⟨l, r, hlr⟩
      cases l <;> cases hlr
  | cons c rest ih =>
    simp only [containsSub, Bool.or_eq_true, isPrefixOf_eq_true_iff, ih]
    constructor
    · rintro (⟨t, ht⟩ | ⟨l, r, hlr⟩)
      · exact ⟨[], t, by simpa using ht⟩
      · exact ⟨c :: l, r, by simp [hlr]⟩
    · rintro ⟨l, r, hlr⟩
      cases l with
      | nil =>
        left
        exact ⟨r, by simpa using hlr⟩
      | cons d l' =>
        right
        injection hlr with h1 h2
        exact ⟨l', r, h2⟩

theorem not_sub_of_containsSub_eq_false (p s : Str) (h : containsSub p s = false) :
    ¬ (p <:+: s) := by
  intro hinf
  have ht := (containsSub_eq_true_iff p s).mpr hinf
  rw [ht] at h
  cases h

theorem containsSub_eq_false_of_not_sub (p s : Str) (h : ¬ (p <:+: s)) :
    containsSub p s = false := by
  cases hc : containsSub p s with
  | false => rfl
  | true => exact absurd ((containsSub_eq_true_iff p s).mp hc) h

theorem sub_of_sub_cons_tail {p rest : Str} (c : Char) (h : p <:+: rest) :
    p <:+: c :: rest := by
  obtain ⟨l, r, hlr⟩ := h
  exact ⟨c :: l, r, by simp [hlr]⟩

theorem append_cons_eq_of_not_mem {c : Char} : ∀ (a b x y : Str), c ∉ a → c ∉ b →
    a ++ c :: x = b ++ c :: y → a = b ∧ x = y := by
  intro a
  induction a with
  | nil =>
    intro b x y _ hb h
    cases b with
    | nil => simpa using h
    | cons d b' =>
      simp only [List.nil_append, List.cons_append, List.cons.injEq] at h
      exact absurd (h.1 ▸ List.mem_cons_self d b') hb
  | cons e a' ih =>
    intro b x y ha hb h
    cases b with
    | nil =>
      simp only [List.cons_append, List.nil_append, List.cons.injEq] at h
      exact absurd (h.1 ▸ List.mem_cons_self e a') ha
    | cons f b' =>
      simp only [List.cons_append, List.cons.injEq] at h
      have ha' : c ∉ a' := fun hm => ha (List.mem_cons_of_mem e hm)
      have hb' : c ∉ b' := fun hm => hb (List.mem_cons_of_mem f hm)
      obtain ⟨hab, hxy⟩ := ih b' x y ha' hb' h.2
      exact ⟨by rw [h.1, hab], hxy⟩

theorem mem_split_first {c : Char} : ∀ {l : Str}, c ∈ l →
    ∃ l1 l2, l = l1 ++ c :: l2 ∧ c ∉ l1 := by
  intro l
  induction l with
  | nil => intro h; cases h
  | cons a l' ih =>
    intro h
    by_cases hac : a = c
    · exact ⟨[], l', by simp [hac], by simp⟩
    · have : c ∈ l' := by
        rcases List.mem_cons.mp h with h1 | h1
        · exact absurd h1.symm hac
        · exact h1
      obtain ⟨l1, l2, heq, hnot⟩ := ih this
      refine ⟨a :: l1, l2, by rw [List.cons_append, heq], ?_⟩
      intro hm
      rcases List.mem_cons.mp hm with h1 | h1
      · exact hac h1.symm
      · exact hnot h1

theorem placeholder_unique (k pre body post : Str)
    (hpre1 : '{' ∉ pre) (hpre2 : '}' ∉ pre)
    (hbody1 : '{' ∉ body) (hbody2 : '}' ∉ body)
    (hpost1 : '{' ∉ post) (hpost2 : '}' ∉ post)
    (hocc : ('{' :: k ++ ['}']) <:+: (pre ++ '{' :: body ++ '}' :: post)) :
    k = body := by
  obtain ⟨l, r, hlr⟩ := hocc
  have hcount1 : (l ++ ('{' :: k ++ ['}']) ++ r).count '{' =
      (pre ++ '{' :: body ++ '}' :: post).count '{' := by rw [hlr]
  have hcount2 : (l ++ ('{' :: k ++ ['}']) ++ r).count '}' =
      (pre ++ '{' :: body ++ '}' :: post).count '}' := by rw [hlr]
  have e1 : List.count '{' pre = 0 := List.count_eq_zero.mpr hpre1
  have e2 : List.count '}' pre = 0 := List.count_eq_zero.mpr hpre2
  have e3 : List.count '{' body = 0 := List.count_eq_zero.mpr hbody1
  have e4 : List.count '}' body = 0 := List.count_eq_zero.mpr hbody2
  have e5 : List.count '{' post = 0 := List.count_eq_zero.mpr hpost1
  have e6 : List.count '}' post = 0 := List.count_eq_zero.mpr hpost2
  simp [List.count_append, List.count_cons, e1, e2, e3, e4, e5, e6] at hcount1 hcount2
  have hl1 : '{' ∉ l := List.count_eq_zero.mp (by omega)
  have hr1 : '{' ∉ r := List.count_eq_zero.mp (by omega)
  have hk2 : '}' ∉ k := List.count_eq_zero.mp (by omega)
  have hshape : l ++ '{' :: (k ++ '}' :: r) = pre ++ '{' :: (body ++ '}' :: post) := by
    simpa [List.append_assoc] using hlr
  obtain ⟨-, h2⟩ := append_cons_eq_of_not_mem l pre (k ++ '}' :: r) (body ++ '}' :: post)
    hl1 hpre1 hshape
  obtain ⟨h3, -⟩ := append_cons_eq_of_not_mem k body r post hk2 hbody2 h2
  exact h3

theorem replaceAllGo_id_of_no_occurrence (p r : Str) :
    ∀ (fuel : Nat) (s : Str), ¬ (p <:+: s) → replaceAllGo p r fuel s = s := by
  intro fuel
  induction fuel with
  | zero => intro s _; rfl
  | succ f ih =>
    intro s hno
    cases s with
    | nil => rfl
    | cons c rest =>
      simp only [replaceAllGo]
      rw [if_neg, ih rest]
      · intro hinf
        exact hno (sub_of_sub_cons_tail c hinf)
      · rintro ⟨hne, hpre⟩
        obtain ⟨t, ht⟩ := (isPrefixOf_eq_true_iff p (c :: rest)).mp hpre
        exact hno ⟨[], t, by simpa using ht⟩

theorem replaceAll_id_of_no_occurrence (p r s : Str) (h : ¬ (p <:+: s)) :
    replaceAll p r s = s :=
  replaceAllGo_id_of_no_occurrence p r s.length s h

theorem replaceAllGo_single (kk r post : Str) (hpost : '{' ∉ post) :
    ∀ (pre : Str) (fuel : Nat), '{' ∉ pre →
    (pre ++ '{' :: kk ++ post).length ≤ fuel →
    replaceAllGo ('{' :: kk) r fuel (pre ++ '{' :: kk ++ post) = pre ++ r ++ post := by
  intro pre
  induction pre with
  | nil =>
    intro fuel _ hlen
    cases fuel with
    | zero => simp at hlen
    | succ f =>
      simp only [List.nil_append, List.cons_append] at hlen ⊢
      rw [replaceAllGo]
      rw [if_pos]
      · have hdrop : ('{' :: (kk ++ post)).drop ('{' :: kk).length = post := by
          rw [show ('{' :: (kk ++ post)) = ('{' :: kk) ++ post by simp]
          exact List.drop_left ('{' :: kk) post
        rw [hdrop]
        rw [replaceAllGo_id_of_no_occurrence]
        rintro ⟨l, r', hlr⟩
        have : '{' ∈ post := by
          rw [← hlr]
          simp
        exact hpost this
      · refine ⟨by simp, ?_⟩
        rw [isPrefixOf_eq_true_iff]
        exact ⟨post, by simp⟩
  | cons c pre' ih =>
    intro fuel hpre hlen
    have hc : c ≠ '{' := fun h => hpre (h ▸ List.mem_cons_self c pre')
    have hpre' : '{' ∉ pre' := fun h => hpre (List.mem_cons_of_mem c h)
    cases fuel with
    | zero => simp at hlen
    | succ f =>
      simp only [List.cons_append] at hlen ⊢
      rw [replaceAllGo]
      rw [if_neg]
      · rw [ih f hpre' (by simpa using Nat.le_of_succ_le_succ hlen)]
      · rintro ⟨-, hpre2⟩
        obtain ⟨t, ht⟩ := (isPrefixOf_eq_true_iff _ _).mp hpre2
        injection ht with h1 h2
        exact hc h1.symm

theorem replaceAll_single (kk r post : Str) (hpost : '{' ∉ post) (pre : Str)
    (hpre : '{' ∉ pre) :
    replaceAll ('{' :: kk) r (pre ++ '{' :: kk ++ post) = pre ++ r ++ post :=
  replaceAllGo_single kk r post hpost pre _ hpre (Nat.le_refl _)

theorem takeWhile_brace_split : ∀ (body post : Str), '}' ∉ body →
    (body ++ '}' :: post).takeWhile (fun x => x != '}') = body := by
  intro body
  induction body with
  | nil =>
    intro post _
    simp [List.takeWhile_cons]
  | cons a body' ih =>
    intro post h
    have ha : a ≠ '}' := fun hh => h (hh ▸ List.mem_cons_self a body')
    have h' : '}' ∉ body' := fun hh => h (List.mem_cons_of_mem a hh)
    simp only [List.cons_append, List.takeWhile_cons]
    simp [ha, ih post h']

theorem dropWhile_brace_split : ∀ (body post : Str), '}' ∉ body →
    (body ++ '}' :: post).dropWhile (fun x => x != '}') = '}' :: post := by
  intro body
  induction body with
  | nil =>
    intro post _
    simp [List.dropWhile_cons]
  | cons a body' ih =>
    intro post h
    have ha : a ≠ '}' := fun hh => h (hh ▸ List.mem_cons_self a body')
    have h' : '}' ∉ body' := fun hh => h (List.mem_cons_of_mem a hh)
    simp only [List.cons_append, List.dropWhile_cons]
    simp [ha, ih post h']

theorem findPlaceholdersGo_nil_of_no_brace : ∀ (fuel : Nat) (s : Str), '{' ∉ s →
    findPlaceholdersGo fuel s = [] := by
  intro fuel
  induction fuel with
  | zero => intro s _; rfl
  | succ f ih =>
    intro s hs
    cases s with
    | nil => rfl
    | cons c rest =>
      have hc : c ≠ '{' := fun h => hs (h ▸ List.mem_cons_self c rest)
      have hrest : '{' ∉ rest := fun h => hs (List.mem_cons_of_mem c h)
      simp only [findPlaceholdersGo]
      rw [if_neg (fun h => hc h)]
      exact ih rest hrest

theorem findPlaceholdersGo_single (body post : Str) (hb : body ≠ []) (hb2 : '}' ∉ body)
    (hpost : '{' ∉ post) :
    ∀ (pre : Str) (fuel : Nat), '{' ∉ pre →
    (pre ++ '{' :: body ++ '}' :: post).length ≤ fuel →
    findPlaceholdersGo fuel (pre ++ '{' :: body ++ '}' :: post)
      = ['{' :: body ++ ['}']] := by
  intro pre
  induction pre with
  | nil =>
    intro fuel _ hlen
    cases fuel with
    | zero => simp at hlen
    | succ f =>
      simp only [List.nil_append, List.cons_append] at hlen ⊢
      rw [findPlaceholdersGo]
      rw [if_pos rfl]
      simp only [takeWhile_brace_split body post hb2, dropWhile_brace_split body post hb2]
      rw [if_pos ⟨hb, by simp⟩]
      simp only [List.drop_succ_cons, List.drop_zero]
      rw [findPlaceholdersGo_nil_of_no_brace f post hpost]
      simp
  | cons c pre' ih =>
    intro fuel hpre hlen
    have hc : c ≠ '{' := fun h => hpre (h ▸ List.mem_cons_self c pre')
    have hpre' : '{' ∉ pre' := fun h => hpre (List.mem_cons_of_mem c h)
    cases fuel with
    | zero => simp at hlen
    | succ f =>
      simp only [List.cons_append] at hlen ⊢
      rw [findPlaceholdersGo]
      rw [if_neg (fun h => hc h)]
      exact ih f hpre' (by simpa using Nat.le_of_succ_le_succ hlen)

theorem findPlaceholders_single (body post : Str) (hb : body ≠ []) (hb2 : '}' ∉ body)
    (hpost : '{' ∉ post) (pre : Str) (hpre : '{' ∉ pre) :
    findPlaceholders (pre ++ '{' :: body ++ '}' :: post) = ['{' :: body ++ ['}']] :=
  findPlaceholdersGo_single body post hb hb2 hpost pre _ hpre (Nat.le_refl _)

theorem findPlaceholdersGo_ne_nil (b : Str) (hb : b ≠ []) (hb2 : '}' ∉ b) :
    ∀ (fuel : Nat) (s : Str), s.length ≤ fuel → ('{' :: b ++ ['}']) <:+: s →
    findPlaceholdersGo fuel s ≠ [] := by
  intro fuel
  induction fuel with
  | zero =>
    intro s hlen hocc
    have hs : s = [] := List.length_eq_zero.mp (Nat.le_zero.mp hlen)
    obtain ⟨l, r, hlr⟩ := hocc
    rw [hs] at hlr
    cases l <;> cases hlr
  | succ f ih =>
    intro s hlen hocc
    obtain ⟨l, r, hlr⟩ := hocc
    cases l with
    | nil =>
      have hshape : s = '{' :: (b ++ '}' :: r) := by
        rw [← hlr]
        simp
      subst hshape
      simp only [List.length_cons] at hlen
      rw [findPlaceholdersGo]
      rw [if_pos rfl]
      rw [if_pos ⟨by rw [takeWhile_brace_split b r hb2]; exact hb,
                  by rw [dropWhile_brace_split b r hb2]; simp⟩]
      simp
    | cons d l' =>
      have hshape : s = d :: (l' ++ ('{' :: b ++ ['}']) ++ r) := by
        rw [← hlr]
        simp
      subst hshape
      simp only [List.length_cons] at hlen
      have hocc' : ('{' :: b ++ ['}']) <:+: (l' ++ ('{' :: b ++ ['}']) ++ r) :=
        ⟨l', r, rfl⟩
      have hlen' : (l' ++ ('{' :: b ++ ['}']) ++ r).length ≤ f :=
        Nat.le_of_succ_le_succ hlen
      rw [findPlaceholdersGo]
      by_cases hd : d = '{'
      · rw [if_pos hd]
        by_cases hcond : (l' ++ ('{' :: b ++ ['}']) ++ r).takeWhile (fun x => x != '}') ≠ [] ∧
            (l' ++ ('{' :: b ++ ['}']) ++ r).dropWhile (fun x => x != '}') ≠ []
        · rw [if_pos hcond]
          simp
        · rw [if_neg hcond]
          exact ih _ hlen' hocc'
      · rw [if_neg hd]
        exact ih _ hlen' hocc'

theorem findPlaceholders_ne_nil (b s : Str) (hb : b ≠ []) (hb2 : '}' ∉ b)
    (hocc : ('{' :: b ++ ['}']) <:+: s) : findPlaceholders s ≠ [] :=
  findPlaceholdersGo_ne_nil b hb hb2 s.length s (Nat.le_refl _) hocc

theorem no_occurrence_of_resolved (s k : Str) (h1 : findPlaceholders s = [])
    (h2 : containsSub ['{', '}'] s = false) :
    ¬ (('{' :: k ++ ['}']) <:+: s) := by
  intro hocc
  have hnotpair : ¬ (['{', '}'] <:+: s) := not_sub_of_containsSub_eq_false _ s h2
  by_cases hmem : '}' ∈ k
  · obtain ⟨k1, k2, rfl, hk1⟩ := mem_split_first hmem
    by_cases hk1nil : k1 = []
    · subst hk1nil
      apply hnotpair
      refine List.IsInfix.trans ?_ hocc
      exact ⟨[], k2 ++ ['}'], by simp⟩
    · have hsub : ('{' :: k1 ++ ['}']) <:+: ('{' :: (k1 ++ '}' :: k2) ++ ['}']) :=
        ⟨[], k2 ++ ['}'], by simp⟩
      exact findPlaceholders_ne_nil k1 s hk1nil hk1 (hsub.trans hocc) h1
  · by_cases hknil : k = []
    · subst hknil
      exact hnotpair (by simpa using hocc)
    · exact findPlaceholders_ne_nil k s hknil hmem hocc h1

theorem foldl_fixed {β : Type} (g : Str → β → Str) (s : Str) :
    ∀ l : List β, (∀ b ∈ l, g s b = s) → l.foldl g s = s := by
  intro l
  induction l with
  | nil => intro _; rfl
  | cons b bs ih =>
    intro h
    rw [List.foldl_cons, h b (List.mem_cons_self b bs)]
    exact ih (fun b' hb' => h b' (List.mem_cons_of_mem b hb'))

/-! ## Claim C7 -/

/-- C7 (confirmed): for every task and every template made of brace-free
text around a placeholder `{body}` that nothing resolves — `body` is not
`content` or `task_id`, no result key equals `body` directly or via the
legacy `_result` suffix, and no metadata key equals `body` — template
resolution replaces the placeholder with the empty string instead of
raising an error. -/
theorem c7_unresolved_blanked (t : Task) (pre body post : Str)
    (hb : body ≠ [])
    (hpre1 : '{' ∉ pre) (hpre2 : '}' ∉ pre)
    (hbody1 : '{' ∉ body) (hbody2 : '}' ∉ body)
    (hpost1 : '{' ∉ post) (hpost2 : '}' ∉ post)
    (hc : body ≠ "content".data) (hid : body ≠ "task_id".data)
    (hres : ∀ kv ∈ t.results, kv.1 ≠ body ∧ kv.1 ++ "_result".data ≠ body)
    (hmeta : ∀ kv ∈ t.metadata, kv.1 ≠ body) :
    format_prompt (pre ++ '{' :: body ++ '}' :: post) t = pre ++ post := by
  have hnocc : ∀ k : Str, k ≠ body →
      ¬ (('{' :: k ++ ['}']) <:+: (pre ++ '{' :: body ++ '}' :: post)) := by
    intro k hk hocc
    exact hk (placeholder_unique k pre body post hpre1 hpre2 hbody1 hbody2 hpost1 hpost2 hocc)
  have htne : pre ++ '{' :: body ++ '}' :: post ≠ [] := by simp
  have hcshape : "{content}".data = '{' :: "content".data ++ ['}'] := by decide
  have hishape : "{task_id}".data = '{' :: "task_id".data ++ ['}'] := by decide
  have h1 : replaceAll ("{content}".data) t.content (pre ++ '{' :: body ++ '}' :: post)
      = pre ++ '{' :: body ++ '}' :: post := by
    apply replaceAll_id_of_no_occurrence
    rw [hcshape]
    exact hnocc "content".data (Ne.symm hc)
  have h2 : replaceAll ("{task_id}".data) t.id (pre ++ '{' :: body ++ '}' :: post)
      = pre ++ '{' :: body ++ '}' :: post := by
    apply replaceAll_id_of_no_occurrence
    rw [hishape]
    exact hnocc "task_id".data (Ne.symm hid)
  have h3 : t.results.foldl
      (fun acc kv =>
        let acc1 :=
          if containsSub ('{' :: (kv.1 ++ "_result".data) ++ ['}']) acc then
            replaceAll ('{' :: (kv.1 ++ "_result".data) ++ ['}']) kv.2 acc
          else acc
        if containsSub ('{' :: kv.1 ++ ['}']) acc1 then
          replaceAll ('{' :: kv.1 ++ ['}']) kv.2 acc1
        else acc1)
      (pre ++ '{' :: body ++ '}' :: post) = pre ++ '{' :: body ++ '}' :: post := by
    apply foldl_fixed
    intro kv hkv
    have e1 : ¬ (containsSub ('{' :: (kv.1 ++ "_result".data) ++ ['}'])
        (pre ++ '{' :: body ++ '}' :: post) = true) := fun h =>
      hnocc _ (hres kv hkv).2 ((containsSub_eq_true_iff _ _).mp h)
    have e2 : ¬ (containsSub ('{' :: kv.1 ++ ['}'])
        (pre ++ '{' :: body ++ '}' :: post) = true) := fun h =>
      hnocc _ (hres kv hkv).1 ((containsSub_eq_true_iff _ _).mp h)
    dsimp only
    rw [if_neg e1, if_neg e2]
  have h4 : t.metadata.foldl
      (fun acc kv =>
        if containsSub ('{' :: kv.1 ++ ['}']) acc then
          replaceAll ('{' :: kv.1 ++ ['}']) kv.2 acc
        else acc)
      (pre ++ '{' :: body ++ '}' :: post) = pre ++ '{' :: body ++ '}' :: post := by
    apply foldl_fixed
    intro kv hkv
    have e2 : ¬ (containsSub ('{' :: kv.1 ++ ['}'])
        (pre ++ '{' :: body ++ '}' :: post) = true) := fun h =>
      hnocc _ (hmeta kv hkv) ((containsSub_eq_true_iff _ _).mp h)
    rw [if_neg e2]
  have h5 : resolveRemaining (pre ++ '{' :: body ++ '}' :: post) = pre ++ post := by
    unfold resolveRemaining
    rw [findPlaceholders_single body post hb hbody2 hpost1 pre hpre1]
    have hno1 : ¬ ('{' :: body ++ ['}'] = ['{'] ∨ '{' :: body ++ ['}'] = ['}']) := by
      rcases body with _ | ⟨b, bs⟩
      · exact absurd rfl hb
      · rintro (h | h) <;> simp at h
    rw [List.foldl_cons, List.foldl_nil, if_neg hno1]
    have hassoc : pre ++ '{' :: body ++ '}' :: post
        = pre ++ '{' :: (body ++ ['}']) ++ post := by simp
    have hpat : ('{' :: body ++ ['}'] : Str) = '{' :: (body ++ ['}']) := by simp
    rw [hassoc, hpat, replaceAll_single (body ++ ['}']) [] post hpost1 pre hpre1]
    simp
  unfold format_prompt
  rw [if_neg htne, h1, h2, h3, h4, h5]

/-- Witness for `c7_unresolved_blanked`: the scenario of the claim, a
template referencing `{nonexistent_step}` against a task with unrelated
results and metadata. -/
theorem c7_unresolved_blanked_witness :
    format_prompt
        ("Summarize ".data ++ '{' :: "nonexistent_step".data ++ '}' :: " now".data)
        { sampleTask with
            results := [("search".data, "r1".data)]
            metadata := [("tone".data, "formal".data)] } =
      "Summarize ".data ++ " now".data :=
  c7_unresolved_blanked
    { sampleTask with
        results := [("search".data, "r1".data)]
        metadata := [("tone".data, "formal".data)] }
    "Summarize ".data "nonexistent_step".data " now".data
    (by decide) (by decide) (by decide) (by decide) (by decide) (by decide) (by decide)
    (by decide) (by decide) (by decide) (by decide)

/-! ## Claim C8 -/

/-- C8, as stated, is false: the string `"{}"` contains no placeholder
of the regex form `\{[^}]+\}` (so nothing remains for step 5 to
resolve), yet resolving it against a task whose metadata holds the empty
string as a key substitutes that key's value for `{}` and returns a
different string. -/
theorem c8_counterexample :
    findPlaceholders ("{}".data) = [] ∧
    format_prompt ("{}".data) emptyKeyTask = "z".data ∧
    format_prompt ("{}".data) emptyKeyTask ≠ "{}".data := by
  decide

/-- C8 (amended): template resolution is idempotent on resolved strings
that contain no empty brace pair: for every task, a string with no
remaining `{...}` placeholder and no occurrence of `{}` resolves to
itself unchanged.  (The `{}` exclusion is forced by the counterexample:
an empty-string result or metadata key substitutes `{}`.) -/
theorem c8_idempotent_resolution (s : Str) (t : Task)
    (h1 : findPlaceholders s = []) (h2 : containsSub ['{', '}'] s = false) :
    format_prompt s t = s := by
  by_cases hnil : s = []
  · rw [hnil]
    rfl
  · have hno : ∀ k : Str, ¬ (('{' :: k ++ ['}']) <:+: s) := fun k =>
      no_occurrence_of_resolved s k h1 h2
    have hcshape : "{content}".data = '{' :: "content".data ++ ['}'] := by decide
    have hishape : "{task_id}".data = '{' :: "task_id".data ++ ['}'] := by decide
    have hr1 : replaceAll ("{content}".data) t.content s = s := by
      apply replaceAll_id_of_no_occurrence
      rw [hcshape]
      exact hno _
    have hr2 : replaceAll ("{task_id}".data) t.id s = s := by
      apply replaceAll_id_of_no_occurrence
      rw [hishape]
      exact hno _
    have h3 : t.results.foldl
        (fun acc kv =>
          let acc1 :=
            if containsSub ('{' :: (kv.1 ++ "_result".data) ++ ['}']) acc then
              replaceAll ('{' :: (kv.1 ++ "_result".data) ++ ['}']) kv.2 acc
            else acc
          if containsSub ('{' :: kv.1 ++ ['}']) acc1 then
            replaceAll ('{' :: kv.1 ++ ['}']) kv.2 acc1
          else acc1) s = s := by
      apply foldl_fixed
      intro kv hkv
      have e1 : ¬ (containsSub ('{' :: (kv.1 ++ "_result".data) ++ ['}']) s = true) :=
        fun h => hno _ ((containsSub_eq_true_iff _ _).mp h)
      have e2 : ¬ (containsSub ('{' :: kv.1 ++ ['}']) s = true) :=
        fun h => hno _ ((containsSub_eq_true_iff _ _).mp h)
      dsimp only
      rw [if_neg e1, if_neg e2]
    have h4 : t.metadata.foldl
        (fun acc kv =>
          if containsSub ('{' :: kv.1 ++ ['}']) acc then
            replaceAll ('{' :: kv.1 ++ ['}']) kv.2 acc
          else acc) s = s := by
      apply foldl_fixed
      intro kv hkv
      have e2 : ¬ (containsSub ('{' :: kv.1 ++ ['}']) s = true) :=
        fun h => hno _ ((containsSub_eq_true_iff _ _).mp h)
      rw [if_neg e2]
    have h5 : resolveRemaining s = s := by
      unfold resolveRemaining
      rw [h1, List.foldl_nil]
    unfold format_prompt
    rw [if_neg hnil, hr1, hr2, h3, h4, h5]

/-- Witness for `c8_idempotent_resolution` on a fully resolved string. -/
theorem c8_idempotent_resolution_witness :
    format_prompt ("Already resolved output.".data) sampleTask =
      "Already resolved output.".data :=
  c8_idempotent_resolution ("Already resolved output.".data) sampleTask
    (by decide) (by decide)

end OBP
